import Mathlib

/-
Verification of the EClinick/OS1 repository (two Rust coursework programs):
HW1-Rust/movies_cargo (CSV-backed movie query tool) and
HW2-Rust/files_and_directories (directory-scanning CSV organizer).

The Rust code is shallowly embedded: string operations are modelled over
the character list underlying a Lean String (all definitions are structural
and kernel-executable); Rust i32 is modelled as Int with explicit bounds;
Rust f32 values that the program stores are modelled as exact rationals
(the stored ratings are either 0.0 or decimal literals in [1.0, 10.0], on
which f32 comparison agrees with rational comparison).  Stateful loops
become folds or structural recursion; stdout printing becomes returned
lists of lines; process exit becomes an explicit outcome constructor.
-/

namespace OS1

/-! ## Generic string helpers (models of the Rust str operations used) -/

/-- Model of Rust str::trim on a character list: drop whitespace from both
ends.  (Rust trims Unicode whitespace; the repository only ever deals in
ASCII, where Char.isWhitespace agrees.) -/
def trimL (l : List Char) : List Char :=
  ((l.dropWhile Char.isWhitespace).reverse.dropWhile Char.isWhitespace).reverse

/-- String-level trim built on trimL. -/
def trimS (s : String) : String := String.mk (trimL s.data)

/-- Model of Rust str::split(char): split a character list on a separator
character; always returns at least one (possibly empty) piece, exactly as
Rust does. -/
def splitOnChar (c : Char) : List Char → List (List Char)
  | [] => [[]]
  | a :: rest =>
    let r := splitOnChar c rest
    if a = c then [] :: r
    else
      match r with
      | [] => [[a]]
      | h :: t => (a :: h) :: t

/-- Model of Rust String::len: the UTF-8 byte length. -/
def utf8Len (l : List Char) : Nat := l.foldl (fun n c => n + c.utf8Size) 0

/-- Model of Rust str::starts_with for a string pattern. -/
def startsWithStr (p s : String) : Bool := p.data.isPrefixOf s.data

/-- Model of Rust str::ends_with for a string pattern. -/
def endsWithStr (p s : String) : Bool := p.data.reverse.isPrefixOf s.data.reverse

/-- Decimal value of a digit list (most significant first). -/
def digitsVal (l : List Char) : Nat :=
  l.foldl (fun n c => n * 10 + (c.toNat - 48)) 0

/-- Parse a nonempty all-ASCII-digit list to a Nat, as Rust integer parsing
does for the digit part. -/
def digitsToNat? (l : List Char) : Option Nat :=
  if l ≠ [] ∧ l.all Char.isDigit then some (digitsVal l) else none

/-- Strip one optional leading sign, reporting whether it was a minus. -/
def stripSign (l : List Char) : Bool × List Char :=
  match l with
  | '-' :: rest => (true, rest)
  | '+' :: rest => (false, rest)
  | _ => (false, l)

/-- Model of Rust str::parse::<i32>: optional sign, a nonempty run of ASCII
digits, and the value must fit in i32 (otherwise Rust reports overflow and
parsing fails). -/
def parse_i32 (s : String) : Option Int :=
  let (neg, digits) := stripSign s.data
  match digitsToNat? digits with
  | none => none
  | some n =>
    let v : Int := if neg then -(n : Int) else (n : Int)
    if v < -(2 ^ 31) ∨ (2 ^ 31) - 1 < v then none else some v

/-- Mantissa of a decimal float literal: digits with at most one point and
at least one digit overall ("5", "5.", ".5", "5.25" are accepted, exactly
as Rust f32 parsing accepts them).  The value is the exact rational. -/
def parseMantissa (l : List Char) : Option ℚ :=
  match splitOnChar '.' l with
  | [i] => (digitsToNat? i).map (fun n => (n : ℚ))
  | [i, f] =>
    if (i.all Char.isDigit ∧ f.all Char.isDigit) ∧ (i ≠ [] ∨ f ≠ []) then
      some ((digitsVal i : ℚ) + (digitsVal f : ℚ) / (10 ^ f.length))
    else none
  | _ => none

/-- Split off an exponent part introduced by the letter e or E (Rust f32
parsing accepts either case).  A malformed occurrence is forced to an empty
exponent, which the caller then rejects. -/
def splitExp (l : List Char) : List Char × Option (List Char) :=
  match splitOnChar 'e' l with
  | [_] =>
    (match splitOnChar 'E' l with
     | [m2] => (m2, none)
     | [m2, e2] => (m2, some e2)
     | _ => (l, some []))
  | [m, e1] => (m, some e1)
  | _ => (l, some [])

/-- Model of Rust str::parse::<f32> restricted to finite decimal literals,
with exact rational semantics (no binary rounding).  Rust additionally
accepts inf, infinity and nan; those values fail the program's range check
(1.0..=10.0) exactly as a parse failure does, so this model maps them to
none, which is observationally identical inside read_csv. -/
def parse_f32 (s : String) : Option ℚ :=
  let (neg, rest) := stripSign s.data
  let (mantL, expPart) := splitExp rest
  match parseMantissa mantL with
  | none => none
  | some m =>
    let signed := if neg then -m else m
    match expPart with
    | none => some signed
    | some el =>
      let (eneg, edigits) := stripSign el
      match digitsToNat? edigits with
      | none => none
      | some e =>
        some (signed * (10 : ℚ) ^ (if eneg then -(e : Int) else (e : Int)))

/-! ## HW1 movies_cargo: data model and read_csv -/

/-- The Movie struct of HW1-Rust/movies_cargo/src/main.rs.  The f32 rating
is modelled as an exact rational. -/
structure Movie where
  title : String
  year : Int
  languages : List String
  rating : ℚ
deriving DecidableEq

/-- Which of the five validation checks rejected a row (the code prints a
corresponding diagnostic line and continues). -/
inductive SkipReason
  | missingTitleOrYear
  | invalidYear
  | invalidLanguageFormat
  | tooManyLanguages
  | languageTooLong
deriving DecidableEq

/-- Field extraction in read_csv: record.get(i).unwrap_or("").trim(). -/
def fieldAt (record : List String) (i : Nat) : String := trimS (record.getD i "")

/-- The language-list parse in read_csv: strip the surrounding brackets,
split on semicolons, trim each token and drop empty tokens. -/
def parseLanguages (languages_str : String) : List String :=
  (((splitOnChar ';' ((languages_str.data.drop 1).dropLast)).map
      (fun l => String.mk (trimL l))).filter (fun s => s != ""))

/-- The body of the read_csv loop of HW1, translated row by row; index is
the 0-based data-row index (the code reports line index + 2, accounting
for the header line).  Returns the kept movies in input order and the skip
notices with their 1-based source line numbers. -/
def read_csv_rows : Nat → List (List String) → List Movie × List (Nat × SkipReason)
  | _, [] => ([], [])
  | index, record :: rest =>
    let next := read_csv_rows (index + 1) rest
    let title := fieldAt record 0
    let year_str := fieldAt record 1
    let languages_str := fieldAt record 2
    let rating_str := fieldAt record 3
    if title = "" ∨ year_str = "" then
      (next.1, (index + 2, SkipReason.missingTitleOrYear) :: next.2)
    else
      match parse_i32 year_str with
      | some year =>
        if 1900 ≤ year ∧ year ≤ 2021 then
          if startsWithStr "[" languages_str ∧ endsWithStr "]" languages_str then
            let languages := parseLanguages languages_str
            if 5 < languages.length then
              (next.1, (index + 2, SkipReason.tooManyLanguages) :: next.2)
            else if languages.any (fun lang => 20 < utf8Len lang.data) then
              (next.1, (index + 2, SkipReason.languageTooLong) :: next.2)
            else
              let rating : ℚ :=
                match parse_f32 rating_str with
                | some r => if 1 ≤ r ∧ r ≤ 10 then r else 0
                | none => 0
              ({ title := title, year := year, languages := languages,
                 rating := rating } :: next.1, next.2)
          else (next.1, (index + 2, SkipReason.invalidLanguageFormat) :: next.2)
        else (next.1, (index + 2, SkipReason.invalidYear) :: next.2)
      | none => (next.1, (index + 2, SkipReason.invalidYear) :: next.2)

/-- read_csv on the data rows (the csv reader is configured with
has_headers(true), so the header row never reaches the loop). -/
def read_csv (rows : List (List String)) : List Movie × List (Nat × SkipReason) :=
  read_csv_rows 0 rows

/-! ## HW1 queries (printing is modelled as the returned list of lines) -/

/-- show_movies_by_year of HW1: print the title of every movie of the
requested year, in collection order; if none was printed, print the
no-movies message instead. -/
def show_movies_by_year (movies : List Movie) (year : Int) : List String :=
  let result := movies.foldl
    (fun (acc : List String × Bool) movie =>
      if movie.year == year then (acc.1 ++ [movie.title], true) else acc)
    ([], false)
  if result.2 then result.1
  else result.1 ++ ["No movies found in " ++ toString year]

/-- The HashMap entry(year).and_modify(..).or_insert(movie) step of
show_highest_rated_movies, on an association list: if the year is present,
replace the stored movie only when the new rating is strictly greater;
otherwise insert.  (The HashMap iteration order is irrelevant because the
function sorts the keys before producing output.) -/
def hmEntryBest (acc : List (Int × Movie)) (movie : Movie) : List (Int × Movie) :=
  if (List.lookup movie.year acc).isSome then
    acc.map (fun p =>
      if p.1 == movie.year then
        (if p.2.rating < movie.rating then (p.1, movie) else p)
      else p)
  else (movie.year, movie) :: acc

/-- show_highest_rated_movies of HW1: build the per-year best map, sort the
years ascending (Vec::sort, modelled by insertion sort), and emit one
(year, rating, title) triple per year. -/
def show_highest_rated_movies (movies : List Movie) : List (Int × ℚ × String) :=
  let highest_rated := movies.foldl hmEntryBest []
  let years := List.insertionSort (fun a b => a ≤ b) (highest_rated.map Prod.fst)
  years.filterMap (fun y =>
    (List.lookup y highest_rated).map (fun movie => (y, movie.rating, movie.title)))

/-- show_movies_by_language of HW1: print year and title of every movie
whose language vector contains the query string (Vec::contains, exact
case-sensitive equality); if none was printed, print the no-movies
message. -/
def show_movies_by_language (movies : List Movie) (language : String) : List String :=
  let result := movies.foldl
    (fun (acc : List String × Bool) movie =>
      if movie.languages.contains language then
        (acc.1 ++ [toString movie.year ++ " " ++ movie.title], true)
      else acc)
    ([], false)
  if result.2 then result.1
  else result.1 ++ ["No movies found in " ++ language]

/-! ## HW1 startup argument validation -/

/-- Outcome of the argument-checking prologue of HW1 main: either
process::exit(code) after an eprintln of msg, or proceed to read_csv with
the accepted filename. -/
inductive StartupOutcome
  | exitErr (code : Nat) (msg : String)
  | proceed (filename : String)
deriving DecidableEq

/-- The prologue of HW1 main, before any file is opened: exactly two argv
entries are required; the filename must be under 50 bytes and must not
contain a space character.  (The source quotes the filename inside the
error text; the quoting characters are omitted here.) -/
def mainStartup (args : List String) : StartupOutcome :=
  if args.length ≠ 2 then
    StartupOutcome.exitErr 1 ("Usage: " ++ args.getD 0 "" ++ " <CSV_FILE>")
  else
    let filename := args.getD 1 ""
    if 50 ≤ utf8Len filename.data then
      StartupOutcome.exitErr 1
        ("Error: File name " ++ filename ++ " exceeds 49 characters.")
    else if filename.data.contains ' ' then
      StartupOutcome.exitErr 1
        ("Error: File name " ++ filename ++ " contains spaces.")
    else StartupOutcome.proceed filename

/-! ## HW2 files_and_directories -/

/-- A directory entry as find_largest_csv / find_smallest_csv observe it:
its name, whether it is a regular file, and its metadata size in bytes. -/
structure DirEntry where
  name : String
  isFile : Bool
  size : Nat
deriving DecidableEq

/-- The candidate filter of find_largest_csv / find_smallest_csv: a regular
file whose name starts with movies_ and ends with .csv. -/
def matchesMoviesCsv (e : DirEntry) : Bool :=
  e.isFile && startsWithStr "movies_" e.name && endsWithStr ".csv" e.name

/-- The loop body of find_largest_csv: skip non-candidates; track the
(name, size) of the largest candidate seen so far, replacing only on a
strictly larger size. -/
def largestStep (largest_file : Option (String × Nat)) (e : DirEntry) :
    Option (String × Nat) :=
  if matchesMoviesCsv e then
    match largest_file with
    | some (n, current_max) =>
      if current_max < e.size then some (e.name, e.size) else some (n, current_max)
    | none => some (e.name, e.size)
  else largest_file

/-- find_largest_csv of HW2 over the directory-iteration order. -/
def find_largest_csv (entries : List DirEntry) : Option String :=
  (entries.foldl largestStep none).map Prod.fst

/-- The loop body of find_smallest_csv: same scan, replacing only on a
strictly smaller size. -/
def smallestStep (smallest_file : Option (String × Nat)) (e : DirEntry) :
    Option (String × Nat) :=
  if matchesMoviesCsv e then
    match smallest_file with
    | some (n, current_min) =>
      if e.size < current_min then some (e.name, e.size) else some (n, current_min)
    | none => some (e.name, e.size)
  else smallest_file

/-- find_smallest_csv of HW2. -/
def find_smallest_csv (entries : List DirEntry) : Option String :=
  (entries.foldl smallestStep none).map Prod.fst

/-- The HashMap entry(year).or_insert_with(Vec::new).push(title) step of
process_file, on an association list keyed by the verbatim year string. -/
def hmPushTitle (acc : List (String × List String)) (year title : String) :
    List (String × List String) :=
  if (List.lookup year acc).isSome then
    acc.map (fun p => if p.1 == year then (p.1, p.2 ++ [title]) else p)
  else acc ++ [(year, [title])]

/-- The loop body of the grouping loop of process_file in HW2: a data row
enters the map iff its first two fields (taken verbatim: no trim, no parse,
no range check) are both non-empty; the raw year string is the group key. -/
def groupStep (movies_by_year : List (String × List String)) (record : List String) :
    List (String × List String) :=
  let title := record.getD 0 ""
  let year := record.getD 1 ""
  if title ≠ "" ∧ year ≠ "" then hmPushTitle movies_by_year year title
  else movies_by_year

/-- The grouping map process_file builds from the data rows. -/
def process_file_groups (rows : List (List String)) : List (String × List String) :=
  rows.foldl groupStep []

/-- The names of the per-year text files process_file materializes: one
year.txt per key of the grouping map. -/
def yearFileNames (rows : List (List String)) : List String :=
  (process_file_groups rows).map (fun p => p.1 ++ ".txt")

/-! ## Claim-side definitions (the specification, stated in its own words)

The five per-row validation checks, in the order the specification lists
them, first failure winning; used to compare the loop of read_csv against
the per-row pipeline the specification describes. -/

/-- Check 2 of the specification: the year field parses as an integer lying
in [1900, 2021]. -/
def yearOk (s : String) : Bool :=
  match parse_i32 s with
  | some y => decide (1900 ≤ y ∧ y ≤ 2021)
  | none => false

/-- Check 3 of the specification: the languages field is wrapped in a
bracket pair. -/
def languagesFieldOk (s : String) : Bool :=
  startsWithStr "[" s && endsWithStr "]" s

/-- The specification's ordered list of validation checks for one row:
each entry is the failure condition paired with the skip reason it
produces. -/
def specChecks (record : List String) : List (Bool × SkipReason) :=
  [ (fieldAt record 0 == "" || fieldAt record 1 == "", SkipReason.missingTitleOrYear),
    (!yearOk (fieldAt record 1), SkipReason.invalidYear),
    (!languagesFieldOk (fieldAt record 2), SkipReason.invalidLanguageFormat),
    (decide (5 < (parseLanguages (fieldAt record 2)).length), SkipReason.tooManyLanguages),
    ((parseLanguages (fieldAt record 2)).any (fun lang => decide (20 < utf8Len lang.data)),
      SkipReason.languageTooLong) ]

/-- The record a row that passes every check contributes: the parsed
fields, with the rating forced to 0 when missing, unparsable or outside
[1.0, 10.0]. -/
def mkMovie (record : List String) : Movie :=
  { title := fieldAt record 0,
    year := (parse_i32 (fieldAt record 1)).getD 0,
    languages := parseLanguages (fieldAt record 2),
    rating :=
      match parse_f32 (fieldAt record 3) with
      | some r => if 1 ≤ r ∧ r ≤ 10 then r else 0
      | none => 0 }

/-- The specification's per-row pipeline: the first failing check skips the
row with its reason; a row passing all five checks yields its record. -/
def rowOutcome (record : List String) : Except SkipReason Movie :=
  match (specChecks record).find? (fun p => p.1) with
  | some p => Except.error p.2
  | none => Except.ok (mkMovie record)

/-- The rating field is missing, unparsable, or out of range — the
condition under which the specification says the record is kept with
rating 0.0. -/
def ratingBad (record : List String) : Bool :=
  match parse_f32 (fieldAt record 3) with
  | some r => !decide (1 ≤ r ∧ r ≤ 10)
  | none => true

/-- Claim-side grouping for HW2 process_file: the titles, in row order, of
the rows whose title field is non-empty and whose verbatim year field
equals the given non-empty key. -/
def groupTitles (rows : List (List String)) (y : String) : List String :=
  rows.filterMap (fun r =>
    if (r.getD 0 "") ≠ "" ∧ (r.getD 1 "") ≠ "" ∧ (r.getD 1 "") = y then
      some (r.getD 0 "")
    else none)

/-- The skip notice the specification pipeline produces for one indexed row. -/
def rowSkip (p : Nat × List String) : Option (Nat × SkipReason) :=
  match rowOutcome p.2 with
  | Except.error reason => some (p.1 + 2, reason)
  | Except.ok _ => none

/-! ## Helper lemmas -/

/-! ## Generic helper machinery for the fold-based selection proofs -/

/-- The generic strict-improvement selection step: keep the current
candidate unless the new element strictly beats it under the relation r
(r x e means the new element does NOT beat the incumbent e). -/
def pickStep {α β : Type} (key : α → β) (r : β → β → Prop) [DecidableRel r]
    (o : Option α) (x : α) : Option α :=
  match o with
  | none => some x
  | some e => if r (key x) (key e) then some e else some x

/-- The (name, size) pair the HW2 directory scans track for a candidate
entry. -/
def projNS (e : DirEntry) : String × Nat := (e.name, e.size)

theorem find?_congr_mem {α : Type} {p q : α → Bool} :
    ∀ l : List α, (∀ x ∈ l, p x = q x) → l.find? p = l.find? q := by
  intro l
  induction l with
  | nil => intro _; rfl
  | cons a t ih =>
    intro h
    rw [List.find?_cons, List.find?_cons, h a (List.mem_cons_self a t),
      ih (fun x hx => h x (List.mem_cons_of_mem a hx))]

theorem foldl_pickStep_some {α β : Type} (key : α → β) (r : β → β → Prop) [DecidableRel r]
    (hrefl : ∀ b, r b b) (htrans : ∀ a b c, r a b → r b c → r a c)
    (htot : ∀ a b, r a b ∨ r b a) :
    ∀ (l : List α) (e : α),
      l.foldl (pickStep key r) (some e)
        = (e :: l).find? (fun x => (e :: l).all (fun m => decide (r (key m) (key x)))) := by
  intro l
  induction l with
  | nil =>
    intro e
    simp [List.find?_cons, List.all_cons, hrefl]
  | cons a t ih =>
    intro e
    rw [List.foldl_cons]
    by_cases hae : r (key a) (key e)
    · rw [show pickStep key r (some e) a = some e by simp [pickStep, hae]]
      rw [ih e]
      by_cases hPe : (t.all fun m => decide (r (key m) (key e))) = true
      · -- e satisfies both head predicates
        have h1 : ((e :: t).all fun m => decide (r (key m) (key e))) = true := by
          simp [List.all_cons, hrefl, hPe]
        have h2 : ((e :: a :: t).all fun m => decide (r (key m) (key e))) = true := by
          simp [List.all_cons, hrefl, hae, hPe]
        rw [List.find?_cons, List.find?_cons]
        simp only [h1, h2]
      · have h1 : ((e :: t).all fun m => decide (r (key m) (key e))) = false := by
          simp only [List.all_cons, Bool.and_eq_false_iff]
          right; simpa using hPe
        have h2 : ((e :: a :: t).all fun m => decide (r (key m) (key e))) = false := by
          simp only [List.all_cons, Bool.and_eq_false_iff]
          right; right; simpa using hPe
        have ha2 : ((e :: a :: t).all fun m => decide (r (key m) (key a))) = false := by
          -- otherwise every element of t would reach e through a
          cases hx : (e :: a :: t).all fun m => decide (r (key m) (key a)) with
          | false => rfl
          | true =>
            exfalso
            simp only [List.all_cons, Bool.and_eq_true, decide_eq_true_eq,
              List.all_eq_true] at hx
            apply hPe
            simp only [List.all_eq_true, decide_eq_true_eq]
            intro m hm
            exact htrans _ _ _ (hx.2.2 m hm) hae
        rw [List.find?_cons, List.find?_cons]
        simp only [h1, h2]
        rw [List.find?_cons]
        simp only [ha2]
        apply find?_congr_mem
        intro x hx
        by_cases hex : r (key e) (key x)
        · have hax : r (key a) (key x) := htrans _ _ _ hae hex
          simp [List.all_cons, hex, hax]
        · simp [List.all_cons, hex]
    · have hea : r (key e) (key a) := (htot _ _).resolve_left hae
      rw [show pickStep key r (some e) a = some a by simp [pickStep, hae]]
      rw [ih a]
      have hhead : ((e :: a :: t).all fun m => decide (r (key m) (key e))) = false := by
        simp only [List.all_cons, Bool.and_eq_false_iff]
        right; left; simpa using hae
      rw [List.find?_cons (p := fun x => (e :: a :: t).all fun m => decide (r (key m) (key x)))]
      simp only [hhead]
      apply find?_congr_mem
      intro x hx
      have hx2 : x ∈ a :: t := hx
      by_cases hax : r (key a) (key x)
      · have hexx : r (key e) (key x) := htrans _ _ _ hea hax
        simp [List.all_cons, hax, hexx]
      · simp [List.all_cons, hax]

theorem foldl_pickStep_none {α β : Type} (key : α → β) (r : β → β → Prop) [DecidableRel r]
    (hrefl : ∀ b, r b b) (htrans : ∀ a b c, r a b → r b c → r a c)
    (htot : ∀ a b, r a b ∨ r b a) (l : List α) :
    l.foldl (pickStep key r) none
      = l.find? (fun x => l.all (fun m => decide (r (key m) (key x)))) := by
  cases l with
  | nil => rfl
  | cons a t =>
    rw [List.foldl_cons, show pickStep key r none a = some a from rfl,
      foldl_pickStep_some key r hrefl htrans htot t a]

theorem lookup_map_modify {κ β : Type} [BEq κ] [LawfulBEq κ] (Y : κ) (g : β → β) :
    ∀ (l : List (κ × β)) (y : κ),
      List.lookup y (l.map (fun p => if p.1 == Y then (p.1, g p.2) else p))
        = if y == Y then (List.lookup y l).map g else List.lookup y l := by
  intro l
  induction l with
  | nil => intro y; cases hy : (y == Y) <;> simp [List.lookup, hy]
  | cons p t ih =>
    intro y
    obtain ⟨k, v⟩ := p
    by_cases hkY : k = Y
    · subst hkY
      by_cases hyk : y = k
      · subst hyk
        simp [List.lookup_cons, ih]
      · have h1 : (y == k) = false := by simp [hyk]
        simp [List.lookup_cons, h1, ih]
    · have h2 : (k == Y) = false := by simp [hkY]
      by_cases hyk : y = k
      · subst hyk
        have h3 : (y == Y) = false := by simp [hkY]
        simp [List.lookup_cons, h2, h3]
      · have h1 : (y == k) = false := by simp [hyk]
        simp [List.lookup_cons, h1, h2, ih]

theorem lookup_isSome_iff_mem {κ β : Type} [BEq κ] [LawfulBEq κ] :
    ∀ (l : List (κ × β)) (y : κ),
      (List.lookup y l).isSome = true ↔ y ∈ l.map Prod.fst := by
  intro l
  induction l with
  | nil => intro y; simp [List.lookup]
  | cons p t ih =>
    intro y
    by_cases hyp : y = p.1
    · simp [List.lookup_cons, hyp]
    · have h1 : (y == p.1) = false := by simp [hyp]
      simp [List.lookup_cons, h1, ih, hyp]



theorem read_csv_rows_eq (rows : List (List String)) : ∀ n : Nat,
    read_csv_rows n rows =
      (rows.filterMap (fun r => (rowOutcome r).toOption),
       (List.enumFrom n rows).filterMap rowSkip) := by
  induction rows with
  | nil => intro n; rfl
  | cons record rest ih =>
    intro n
    simp only [read_csv_rows, List.enumFrom_cons, List.filterMap_cons]
    by_cases h1 : fieldAt record 0 = "" ∨ fieldAt record 1 = ""
    · have hb1 : (fieldAt record 0 == "" || fieldAt record 1 == "") = true := by
        rcases h1 with h | h <;> simp [h]
      have houtcome : rowOutcome record = Except.error SkipReason.missingTitleOrYear := by
        simp [rowOutcome, specChecks, List.find?_cons, hb1]
      simp [h1, houtcome, rowSkip, Except.toOption, ih]
    · have hb1 : (fieldAt record 0 == "" || fieldAt record 1 == "") = false := by
        simp only [not_or] at h1
        simp [h1.1, h1.2]
      cases hp : parse_i32 (fieldAt record 1) with
      | none =>
        have hy : yearOk (fieldAt record 1) = false := by simp [yearOk, hp]
        have houtcome : rowOutcome record = Except.error SkipReason.invalidYear := by
          simp [rowOutcome, specChecks, List.find?_cons, hb1, hy]
        simp [h1, hp, houtcome, rowSkip, Except.toOption, ih]
      | some y =>
        by_cases h2 : 1900 ≤ y ∧ y ≤ 2021
        case neg =>
          have hy : yearOk (fieldAt record 1) = false := by simp [yearOk, hp, h2]
          have houtcome : rowOutcome record = Except.error SkipReason.invalidYear := by
            simp [rowOutcome, specChecks, List.find?_cons, hb1, hy]
          simp [h1, hp, h2, houtcome, rowSkip, Except.toOption, ih]
        case pos =>
          have hy : yearOk (fieldAt record 1) = true := by simp [yearOk, hp, h2]
          cases h3a : startsWithStr "[" (fieldAt record 2) with
          | false =>
            have hlf : languagesFieldOk (fieldAt record 2) = false := by
              simp [languagesFieldOk, h3a]
            have houtcome : rowOutcome record = Except.error SkipReason.invalidLanguageFormat := by
              simp [rowOutcome, specChecks, List.find?_cons, hb1, hy, hlf]
            simp [h1, hp, h2, h3a, houtcome, rowSkip, Except.toOption, ih]
          | true =>
            cases h3b : endsWithStr "]" (fieldAt record 2) with
            | false =>
              have hlf : languagesFieldOk (fieldAt record 2) = false := by
                simp [languagesFieldOk, h3a, h3b]
              have houtcome : rowOutcome record = Except.error SkipReason.invalidLanguageFormat := by
                simp [rowOutcome, specChecks, List.find?_cons, hb1, hy, hlf]
              simp [h1, hp, h2, h3a, h3b, houtcome, rowSkip, Except.toOption, ih]
            | true =>
              have hlf : languagesFieldOk (fieldAt record 2) = true := by
                simp [languagesFieldOk, h3a, h3b]
              by_cases h4 : 5 < (parseLanguages (fieldAt record 2)).length
              · have houtcome : rowOutcome record = Except.error SkipReason.tooManyLanguages := by
                  simp [rowOutcome, specChecks, List.find?_cons, hb1, hy, hlf, h4]
                simp [h1, hp, h2, h3a, h3b, h4, houtcome, rowSkip, Except.toOption, ih]
              · cases h5 : (parseLanguages (fieldAt record 2)).any
                    (fun lang => decide (20 < utf8Len lang.data)) with
                | true =>
                  have houtcome : rowOutcome record = Except.error SkipReason.languageTooLong := by
                    simp [rowOutcome, specChecks, List.find?_cons, hb1, hy, hlf, h4, h5]
                  simp [h1, hp, h2, h3a, h3b, h4, h5, houtcome, rowSkip, Except.toOption, ih]
                | false =>
                  have houtcome : rowOutcome record = Except.ok (mkMovie record) := by
                    simp [rowOutcome, specChecks, List.find?_cons, hb1, hy, hlf, h4, h5]
                  simp [h1, hp, h2, h3a, h3b, h4, h5, houtcome, rowSkip, Except.toOption, ih,
                    mkMovie]


theorem hmEntryBest_lookup (acc : List (Int × Movie)) (movie : Movie) (y : Int) :
    List.lookup y (hmEntryBest acc movie)
      = if movie.year == y then
          pickStep Movie.rating (fun a b => a ≤ b) (List.lookup y acc) movie
        else List.lookup y acc := by
  have hfun : (fun p : Int × Movie =>
        if p.1 == movie.year then
          (if p.2.rating < movie.rating then (p.1, movie) else p)
        else p)
      = (fun p : Int × Movie =>
        if p.1 == movie.year then
          (p.1, (fun e => if e.rating < movie.rating then movie else e) p.2)
        else p) := by
    funext p
    by_cases hc : p.2.rating < movie.rating <;> simp [hc]
  rw [hmEntryBest]
  by_cases hs : (List.lookup movie.year acc).isSome = true
  · rw [if_pos hs, hfun,
      lookup_map_modify movie.year (fun e => if e.rating < movie.rating then movie else e) acc y]
    by_cases hy : y = movie.year
    · subst hy
      simp only [beq_self_eq_true, if_pos]
      obtain ⟨e, he⟩ := Option.isSome_iff_exists.mp hs
      rw [he]
      by_cases hlt : e.rating < movie.rating
      · simp [pickStep, hlt, not_le.mpr hlt]
      · simp [pickStep, hlt, not_lt.mp hlt]
    · have hb : (y == movie.year) = false := by simp [hy]
      have hb2 : (movie.year == y) = false := by
        rw [beq_eq_false_iff_ne]
        exact fun h => hy h.symm
      simp [hb, hb2]
  · rw [if_neg hs]
    have hnone : List.lookup movie.year acc = none := by
      cases h : List.lookup movie.year acc with
      | none => rfl
      | some v => rw [h] at hs; simp at hs
    by_cases hy : y = movie.year
    · subst hy
      simp [List.lookup_cons, hnone, pickStep]
    · have hb : (y == movie.year) = false := by simp [hy]
      have hb2 : (movie.year == y) = false := by
        rw [beq_eq_false_iff_ne]
        exact fun h => hy h.symm
      simp [List.lookup_cons, hb, hb2]

theorem foldl_hmEntryBest_lookup (movies : List Movie) :
    ∀ (acc : List (Int × Movie)) (y : Int),
      List.lookup y (movies.foldl hmEntryBest acc)
        = movies.foldl
            (fun o movie => if movie.year == y
              then pickStep Movie.rating (fun a b => a ≤ b) o movie else o)
            (List.lookup y acc) := by
  induction movies with
  | nil => intros; rfl
  | cons m rest ih =>
    intro acc y
    rw [List.foldl_cons, List.foldl_cons, ih, hmEntryBest_lookup]

theorem foldl_yearStep_filter (y : Int) (movies : List Movie) :
    ∀ (o : Option Movie),
      movies.foldl
          (fun o movie => if movie.year == y
            then pickStep Movie.rating (fun a b => a ≤ b) o movie else o) o
        = (movies.filter (fun m => m.year == y)).foldl
            (pickStep Movie.rating (fun a b => a ≤ b)) o := by
  induction movies with
  | nil => intro o; rfl
  | cons m rest ih =>
    intro o
    rw [List.foldl_cons, List.filter_cons]
    cases hm : (m.year == y) with
    | true => simp only [hm, if_pos, if_true, List.foldl_cons]; rw [ih]
    | false => simp only [hm, Bool.false_eq_true, if_neg, if_false, ih]

/-- The per-year best movie tracked inside show_highest_rated_movies is the
first record of that year whose rating every record of that year is bounded
by: first-seen-wins among maximal-rating records. -/
theorem lookup_best_eq_find (movies : List Movie) (y : Int) :
    List.lookup y (movies.foldl hmEntryBest [])
      = (movies.filter (fun m => m.year == y)).find?
          (fun x => (movies.filter (fun m => m.year == y)).all
            (fun m => decide (m.rating ≤ x.rating))) := by
  rw [foldl_hmEntryBest_lookup, show (List.lookup y ([] : List (Int × Movie))) = none from rfl,
    foldl_yearStep_filter,
    foldl_pickStep_none Movie.rating (fun a b => a ≤ b) (fun b => le_refl b)
      (fun a b c hab hbc => le_trans hab hbc) (fun a b => le_total a b)]

theorem hmEntryBest_keys (acc : List (Int × Movie)) (movie : Movie) :
    (hmEntryBest acc movie).map Prod.fst
      = if (List.lookup movie.year acc).isSome = true then acc.map Prod.fst
        else movie.year :: acc.map Prod.fst := by
  rw [hmEntryBest]
  by_cases hs : (List.lookup movie.year acc).isSome = true
  · rw [if_pos hs, if_pos hs, List.map_map]
    apply List.map_congr_left
    intro p _
    by_cases hp : p.1 == movie.year
    · by_cases hc : p.2.rating < movie.rating <;> simp [Function.comp, hp, hc]
    · simp [Function.comp, hp]
  · rw [if_neg hs, if_neg hs, List.map_cons]

theorem foldl_hmEntryBest_keys_mem (movies : List Movie) :
    ∀ (acc : List (Int × Movie)) (y : Int),
      (y ∈ (movies.foldl hmEntryBest acc).map Prod.fst)
        ↔ (y ∈ movies.map Movie.year ∨ y ∈ acc.map Prod.fst) := by
  induction movies with
  | nil => intros; simp
  | cons m rest ih =>
    intro acc y
    rw [List.foldl_cons, ih, hmEntryBest_keys]
    by_cases hs : (List.lookup m.year acc).isSome = true
    · rw [if_pos hs]
      have hmk : m.year ∈ acc.map Prod.fst := (lookup_isSome_iff_mem acc m.year).mp hs
      simp only [List.map_cons, List.mem_cons]
      constructor
      · rintro (h | h)
        · exact Or.inl (Or.inr h)
        · exact Or.inr h
      · rintro ((h | h) | h)
        · exact Or.inr (h ▸ hmk)
        · exact Or.inl h
        · exact Or.inr h
    · rw [if_neg hs]
      simp only [List.map_cons, List.mem_cons]
      tauto

theorem foldl_hmEntryBest_keys_nodup (movies : List Movie) :
    ∀ (acc : List (Int × Movie)), (acc.map Prod.fst).Nodup →
      ((movies.foldl hmEntryBest acc).map Prod.fst).Nodup := by
  induction movies with
  | nil => intro acc h; exact h
  | cons m rest ih =>
    intro acc h
    rw [List.foldl_cons]
    apply ih
    rw [hmEntryBest_keys]
    by_cases hs : (List.lookup m.year acc).isSome = true
    · rw [if_pos hs]; exact h
    · rw [if_neg hs]
      refine List.nodup_cons.mpr ⟨?_, h⟩
      intro hmem
      exact hs ((lookup_isSome_iff_mem acc m.year).mpr hmem)

theorem filterMap_lookup_fst (hm : List (Int × Movie)) :
    ∀ (ys : List Int), (∀ y ∈ ys, (List.lookup y hm).isSome = true) →
      ((ys.filterMap (fun y => (List.lookup y hm).map
          (fun movie => (y, movie.rating, movie.title)))).map (fun e => e.1)) = ys := by
  intro ys
  induction ys with
  | nil => intro _; rfl
  | cons y t ih =>
    intro h
    obtain ⟨m, hm2⟩ := Option.isSome_iff_exists.mp (h y (List.mem_cons_self y t))
    rw [List.filterMap_cons, hm2]
    simp only [Option.map_some']
    rw [List.map_cons, ih (fun x hx => h x (List.mem_cons_of_mem y hx))]

/-- C1: read_csv applies the five validation checks to each data row in
order with the first failure winning, exactly as the per-row pipeline
rowOutcome states them: (1) empty title or year field, reason
missingTitleOrYear; (2) year not an integer in [1900, 2021], reason
invalidYear; (3) languages field not wrapped in brackets, reason
invalidLanguageFormat; (4) more than 5 language tokens, reason
tooManyLanguages; (5) a language token longer than 20 bytes, reason
languageTooLong.  A skipped row contributes only its skip notice and a
passing row is appended exactly once. -/
theorem read_csv_validation_pipeline (rows : List (List String)) :
    read_csv rows =
      (rows.filterMap (fun r => (rowOutcome r).toOption),
       rows.enum.filterMap rowSkip) := by
  have h := read_csv_rows_eq rows 0
  simpa [read_csv, List.enum] using h

/-- C2: every record in the collection returned by read_csv has a non-empty
title, a year in [1900, 2021], at most 5 language tokens each at most 20
bytes long, and a rating that is either exactly 0 or lies in [1, 10]; the
query operations are pure functions of the collection, so the invariant
persists for the rest of the process. -/
theorem read_csv_record_invariants (rows : List (List String)) (movie : Movie)
    (h : movie ∈ (read_csv rows).1) :
    movie.title ≠ "" ∧ 1900 ≤ movie.year ∧ movie.year ≤ 2021 ∧
    movie.languages.length ≤ 5 ∧ (∀ lang ∈ movie.languages, utf8Len lang.data ≤ 20) ∧
    (movie.rating = 0 ∨ (1 ≤ movie.rating ∧ movie.rating ≤ 10)) := by
  rw [read_csv, read_csv_rows_eq] at h
  rw [List.mem_filterMap] at h
  obtain ⟨r, _, hout⟩ := h
  cases hfind : (specChecks r).find? (fun p => p.1) with
  | some p =>
    rw [rowOutcome, hfind] at hout
    simp [Except.toOption] at hout
  | none =>
    rw [rowOutcome, hfind] at hout
    simp only [Except.toOption] at hout
    rw [List.find?_eq_none] at hfind
    obtain rfl : mkMovie r = movie := by simpa using hout
    have c1 := hfind (fieldAt r 0 == "" || fieldAt r 1 == "",
      SkipReason.missingTitleOrYear) (by simp [specChecks])
    have c2 := hfind (!yearOk (fieldAt r 1), SkipReason.invalidYear) (by simp [specChecks])
    have c4 := hfind (decide (5 < (parseLanguages (fieldAt r 2)).length),
      SkipReason.tooManyLanguages) (by simp [specChecks])
    have c5 := hfind ((parseLanguages (fieldAt r 2)).any
        (fun lang => decide (20 < utf8Len lang.data)), SkipReason.languageTooLong)
      (by simp [specChecks])
    have hc1 : fieldAt r 0 ≠ "" ∧ fieldAt r 1 ≠ "" := by simpa [not_or] using c1
    have hc2 : yearOk (fieldAt r 1) = true := by simpa using c2
    have hc4 : (parseLanguages (fieldAt r 2)).length ≤ 5 := by simpa [not_lt] using c4
    have hc5 : ∀ lang ∈ parseLanguages (fieldAt r 2), utf8Len lang.data ≤ 20 := by
      simpa [List.any_eq_true, not_lt] using c5
    refine ⟨?_, ?_, ?_, ?_, ?_, ?_⟩
    · simpa [mkMovie] using hc1.1
    · cases hp : parse_i32 (fieldAt r 1) with
      | none => rw [yearOk, hp] at hc2; simp at hc2
      | some y =>
        rw [yearOk, hp] at hc2
        simp only [decide_eq_true_eq] at hc2
        simp [mkMovie, hp, hc2.1]
    · cases hp : parse_i32 (fieldAt r 1) with
      | none => rw [yearOk, hp] at hc2; simp at hc2
      | some y =>
        rw [yearOk, hp] at hc2
        simp only [decide_eq_true_eq] at hc2
        simp [mkMovie, hp, hc2.2]
    · simpa [mkMovie] using hc4
    · simpa [mkMovie] using hc5
    · simp only [mkMovie]
      cases hr : parse_f32 (fieldAt r 3) with
      | none => simp
      | some q =>
        simp only
        by_cases hq : 1 ≤ q ∧ q ≤ 10
        · simp [hq]
        · simp [hq]

/-- C3: for a row that passes validation checks 1 to 5, a missing,
unparsable or out-of-range rating field still yields a kept record whose
rating is exactly 0; the rating field alone never causes a skip. -/
theorem rating_never_causes_skip (pre post : List (List String)) (record : List String)
    (hpass : (specChecks record).all (fun p => !p.1) = true)
    (hbad : ratingBad record = true) :
    (read_csv (pre ++ record :: post)).1 =
      (read_csv pre).1 ++ mkMovie record :: (read_csv post).1 ∧
    (mkMovie record).rating = 0 := by
  constructor
  · have hfind : (specChecks record).find? (fun p => p.1) = none := by
      rw [List.find?_eq_none]
      intro x hx
      have hx2 := (List.all_eq_true.mp hpass) x hx
      simp only [Bool.not_eq_true'] at hx2
      simp [hx2]
    have hout : rowOutcome record = Except.ok (mkMovie record) := by rw [rowOutcome, hfind]
    simp [read_csv, read_csv_rows_eq, List.filterMap_append, List.filterMap_cons, hout,
      Except.toOption]
  · cases hr : parse_f32 (fieldAt record 3) with
    | none => simp [mkMovie, hr]
    | some q =>
      rw [ratingBad, hr] at hbad
      simp only [Bool.not_eq_true', decide_eq_false_iff_not] at hbad
      simp [mkMovie, hr, hbad]

theorem rating_never_causes_skip_witness :
    ((specChecks ["T", "2000", "[English]", "abc"]).all (fun p => !p.1) = true) ∧
    (ratingBad ["T", "2000", "[English]", "abc"] = true) ∧
    ((read_csv [["T", "2000", "[English]", "abc"]]).1 =
        (read_csv []).1 ++ mkMovie ["T", "2000", "[English]", "abc"] :: (read_csv []).1 ∧
      (mkMovie ["T", "2000", "[English]", "abc"]).rating = 0) :=
  ⟨by decide, by decide,
    rating_never_causes_skip [] [] ["T", "2000", "[English]", "abc"] (by decide) (by decide)⟩

theorem read_csv_record_invariants_witness :
    (Movie.mk "T" 2000 ["English"] 9) ∈ (read_csv [["T", "2000", "[English]", "9"]]).1 ∧
    ((Movie.mk "T" 2000 ["English"] 9).title ≠ "" ∧
      1900 ≤ (Movie.mk "T" 2000 ["English"] 9).year ∧
      (Movie.mk "T" 2000 ["English"] 9).year ≤ 2021 ∧
      (Movie.mk "T" 2000 ["English"] 9).languages.length ≤ 5 ∧
      (∀ lang ∈ (Movie.mk "T" 2000 ["English"] 9).languages, utf8Len lang.data ≤ 20) ∧
      ((Movie.mk "T" 2000 ["English"] 9).rating = 0 ∨
        (1 ≤ (Movie.mk "T" 2000 ["English"] 9).rating ∧
          (Movie.mk "T" 2000 ["English"] 9).rating ≤ 10))) :=
  ⟨by decide,
    read_csv_record_invariants [["T", "2000", "[English]", "9"]] _ (by decide)⟩

/-- C4: show_highest_rated_movies outputs exactly one (year, rating, title)
entry per distinct year occurring in the collection, in strictly ascending
year order; each rating is the maximum rating among the records of that
year, and the title belongs to a record of that year attaining it. -/
theorem show_highest_rated_movies_correct (movies : List Movie) :
    List.Sorted (fun a b => a < b)
      ((show_highest_rated_movies movies).map (fun e => e.1)) ∧
    (∀ y : Int, y ∈ (show_highest_rated_movies movies).map (fun e => e.1)
        ↔ y ∈ movies.map Movie.year) ∧
    (∀ (y : Int) (r : ℚ) (t : String), (y, r, t) ∈ show_highest_rated_movies movies →
      ∃ mv ∈ movies, mv.year = y ∧ mv.title = t ∧ mv.rating = r ∧
        ∀ mv2 ∈ movies, mv2.year = y → mv2.rating ≤ r) := by
  have hdef : show_highest_rated_movies movies
      = (List.insertionSort (fun a b => a ≤ b)
          ((movies.foldl hmEntryBest []).map Prod.fst)).filterMap
          (fun y => (List.lookup y (movies.foldl hmEntryBest [])).map
            (fun movie => (y, movie.rating, movie.title))) := rfl
  have hknodup : ((movies.foldl hmEntryBest []).map Prod.fst).Nodup :=
    foldl_hmEntryBest_keys_nodup movies [] (by simp)
  have hperm := List.perm_insertionSort (fun a b => a ≤ b)
    ((movies.foldl hmEntryBest []).map Prod.fst)
  have hsnodup : (List.insertionSort (fun a b => a ≤ b)
      ((movies.foldl hmEntryBest []).map Prod.fst)).Nodup := hperm.symm.nodup hknodup
  have hally : ∀ y ∈ List.insertionSort (fun a b => a ≤ b)
      ((movies.foldl hmEntryBest []).map Prod.fst),
      (List.lookup y (movies.foldl hmEntryBest [])).isSome = true := by
    intro y hy
    exact (lookup_isSome_iff_mem _ y).mpr (hperm.mem_iff.mp hy)
  have hout : (show_highest_rated_movies movies).map (fun e => e.1)
      = List.insertionSort (fun a b => a ≤ b)
          ((movies.foldl hmEntryBest []).map Prod.fst) := by
    rw [hdef]
    exact filterMap_lookup_fst _ _ hally
  refine ⟨?_, ?_, ?_⟩
  · rw [hout]
    have hsort := List.sorted_insertionSort (fun a b => a ≤ b)
      ((movies.foldl hmEntryBest []).map Prod.fst)
    exact (List.Pairwise.and hsort hsnodup).imp (fun h => lt_of_le_of_ne h.1 h.2)
  · intro y
    rw [hout, hperm.mem_iff, foldl_hmEntryBest_keys_mem movies [] y]
    simp
  · intro y r t hmem
    rw [hdef, List.mem_filterMap] at hmem
    obtain ⟨y2, _, hsome⟩ := hmem
    cases hl : List.lookup y2 (movies.foldl hmEntryBest []) with
    | none => rw [hl] at hsome; simp at hsome
    | some mv =>
      rw [hl] at hsome
      simp only [Option.map_some', Option.some_inj, Prod.mk.injEq] at hsome
      obtain ⟨hy2, hr2, ht2⟩ := hsome
      subst hy2
      rw [lookup_best_eq_find] at hl
      have hmvmem := List.mem_of_find?_eq_some hl
      have hpred := List.find?_some hl
      rw [List.mem_filter] at hmvmem
      simp only [List.all_eq_true, decide_eq_true_eq] at hpred
      refine ⟨mv, hmvmem.1, by simpa using hmvmem.2, ht2, hr2, ?_⟩
      intro mv2 hmv2 hy2
      rw [← hr2]
      exact hpred mv2 (List.mem_filter.mpr ⟨hmv2, by simp [hy2]⟩)

/-- C7: when several records of a year share the maximal rating,
show_highest_rated_movies selects the first such record in collection
order: the emitted entry is the first record of that year whose rating
bounds every record of the year, because the stored candidate is replaced
only on a strictly greater rating. -/
theorem highest_rated_tie_first_seen (movies : List Movie) (y : Int) (r : ℚ) (t : String)
    (h : (y, r, t) ∈ show_highest_rated_movies movies) :
    ∃ mv : Movie,
      (movies.filter (fun m => m.year == y)).find?
          (fun x => (movies.filter (fun m => m.year == y)).all
            (fun m => decide (m.rating ≤ x.rating))) = some mv
      ∧ mv.year = y ∧ mv.title = t ∧ mv.rating = r := by
  have hdef : show_highest_rated_movies movies
      = (List.insertionSort (fun a b => a ≤ b)
          ((movies.foldl hmEntryBest []).map Prod.fst)).filterMap
          (fun y => (List.lookup y (movies.foldl hmEntryBest [])).map
            (fun movie => (y, movie.rating, movie.title))) := rfl
  rw [hdef, List.mem_filterMap] at h
  obtain ⟨y2, _, hsome⟩ := h
  cases hl : List.lookup y2 (movies.foldl hmEntryBest []) with
  | none => rw [hl] at hsome; simp at hsome
  | some mv =>
    rw [hl] at hsome
    simp only [Option.map_some', Option.some_inj, Prod.mk.injEq] at hsome
    obtain ⟨hy2, hr2, ht2⟩ := hsome
    subst hy2
    rw [lookup_best_eq_find] at hl
    have hmvmem := List.mem_of_find?_eq_some hl
    rw [List.mem_filter] at hmvmem
    exact ⟨mv, hl, by simpa using hmvmem.2, ht2, hr2⟩

theorem foldl_print_filter (p : Movie → Bool) (fmt : Movie → String) :
    ∀ (movies : List Movie) (acc : List String) (b : Bool),
      movies.foldl (fun (st : List String × Bool) movie =>
          if p movie then (st.1 ++ [fmt movie], true) else st) (acc, b)
        = (acc ++ (movies.filter p).map fmt, b || !(movies.filter p).isEmpty) := by
  intro movies
  induction movies with
  | nil => intro acc b; simp
  | cons m rest ih =>
    intro acc b
    rw [List.foldl_cons, List.filter_cons]
    cases hm : p m with
    | true =>
      simp only [hm, if_true, if_pos, ih, List.map_cons, List.isEmpty_cons]
      simp [List.append_assoc]
    | false =>
      simp only [hm, Bool.false_eq_true, if_neg, if_false, ih]

/-- C5: show_movies_by_year prints the titles of exactly the records whose
year equals the target, in collection (source-file) order, and prints the
explicit no-movies message when no record matches. -/
theorem show_movies_by_year_correct (movies : List Movie) (year : Int) :
    show_movies_by_year movies year =
      (if movies.filter (fun m => m.year == year) = [] then
        ["No movies found in " ++ toString year]
      else (movies.filter (fun m => m.year == year)).map Movie.title) := by
  rw [show_movies_by_year,
    foldl_print_filter (fun m => m.year == year) Movie.title movies [] false]
  by_cases hf : movies.filter (fun m => m.year == year) = []
  · simp [hf]
  · simp [hf, List.isEmpty_iff]

/-- C6: show_movies_by_language prints a (year, title) line for exactly the
records whose language list contains the query under exact case-sensitive
string equality, in collection order; in particular the query english does
not match a record whose stored token is English. -/
theorem show_movies_by_language_correct :
    (∀ (movies : List Movie) (language : String),
      show_movies_by_language movies language =
        (if movies.filter (fun m => m.languages.contains language) = [] then
          ["No movies found in " ++ language]
        else (movies.filter (fun m => m.languages.contains language)).map
          (fun m => toString m.year ++ " " ++ m.title))) ∧
    show_movies_by_language [Movie.mk "M" 1994 ["English"] 5] "english" =
      ["No movies found in english"] := by
  constructor
  · intro movies language
    rw [show_movies_by_language,
      foldl_print_filter (fun m => m.languages.contains language)
        (fun m => toString m.year ++ " " ++ m.title) movies [] false]
    by_cases hf : movies.filter (fun m => m.languages.contains language) = []
    · rw [hf, if_pos rfl]
      simp
    · have hne : (movies.filter (fun m => m.languages.contains language)).isEmpty = false := by
        cases hh : (movies.filter (fun m => m.languages.contains language)).isEmpty
        · rfl
        · exact absurd (List.isEmpty_iff.mp hh) hf
      rw [if_neg hf, hne]
      simp
  · decide

theorem show_highest_rated_movies_correct_witness :
    (((1994 : Int), (9 : ℚ), "A") ∈ show_highest_rated_movies
        [Movie.mk "A" 1994 ["English"] 9, Movie.mk "B" 1994 ["English"] 8]) ∧
    (∃ mv ∈ [Movie.mk "A" 1994 ["English"] 9, Movie.mk "B" 1994 ["English"] 8],
      mv.year = 1994 ∧ mv.title = "A" ∧ mv.rating = 9 ∧
        ∀ mv2 ∈ [Movie.mk "A" 1994 ["English"] 9, Movie.mk "B" 1994 ["English"] 8],
          mv2.year = 1994 → mv2.rating ≤ 9) :=
  ⟨by decide,
    (show_highest_rated_movies_correct
      [Movie.mk "A" 1994 ["English"] 9, Movie.mk "B" 1994 ["English"] 8]).2.2
      1994 9 "A" (by decide)⟩

theorem highest_rated_tie_first_seen_witness :
    (((2000 : Int), (7 : ℚ), "A") ∈ show_highest_rated_movies
        [Movie.mk "A" 2000 ["English"] 7, Movie.mk "B" 2000 ["English"] 7]) ∧
    (∃ mv : Movie,
      (([Movie.mk "A" 2000 ["English"] 7, Movie.mk "B" 2000 ["English"] 7]).filter
          (fun m => m.year == (2000 : Int))).find?
          (fun x => (([Movie.mk "A" 2000 ["English"] 7,
              Movie.mk "B" 2000 ["English"] 7]).filter
            (fun m => m.year == (2000 : Int))).all
            (fun m => decide (m.rating ≤ x.rating))) = some mv
        ∧ mv.year = 2000 ∧ mv.title = "A" ∧ mv.rating = 7) :=
  ⟨by decide,
    highest_rated_tie_first_seen
      [Movie.mk "A" 2000 ["English"] 7, Movie.mk "B" 2000 ["English"] 7]
      2000 7 "A" (by decide)⟩

theorem foldl_pickStep_isSome {α β : Type} (key : α → β) (r : β → β → Prop)
    [DecidableRel r] :
    ∀ (l : List α) (e : α), (l.foldl (pickStep key r) (some e)).isSome = true := by
  intro l
  induction l with
  | nil => intro e; rfl
  | cons a t ih =>
    intro e
    rw [List.foldl_cons]
    by_cases hc : r (key a) (key e)
    · rw [show pickStep key r (some e) a = some e by simp [pickStep, hc]]
      exact ih e
    · rw [show pickStep key r (some e) a = some a by simp [pickStep, hc]]
      exact ih a

theorem foldl_largestStep (l : List DirEntry) : ∀ o : Option DirEntry,
    l.foldl largestStep (o.map projNS)
      = ((l.filter matchesMoviesCsv).foldl
          (pickStep DirEntry.size (fun a b => a ≤ b)) o).map projNS := by
  induction l with
  | nil => intro o; rfl
  | cons a t ih =>
    intro o
    rw [List.foldl_cons, List.filter_cons]
    cases hm : matchesMoviesCsv a with
    | false =>
      rw [show largestStep (o.map projNS) a = o.map projNS by simp [largestStep, hm]]
      simp only [Bool.false_eq_true, if_false, ih]
    | true =>
      simp only [if_pos, if_true, List.foldl_cons]
      cases o with
      | none =>
        rw [show largestStep ((none : Option DirEntry).map projNS) a
            = (some a).map projNS by simp [largestStep, hm, projNS],
          show pickStep DirEntry.size (fun a b => a ≤ b) none a = some a from rfl]
        exact ih (some a)
      | some x =>
        by_cases hc : x.size < a.size
        · rw [show largestStep ((some x).map projNS) a = (some a).map projNS by
              simp [largestStep, hm, projNS, hc],
            show pickStep DirEntry.size (fun a b => a ≤ b) (some x) a = some a by
              simp [pickStep, not_le.mpr hc]]
          exact ih (some a)
        · rw [show largestStep ((some x).map projNS) a = (some x).map projNS by
              simp [largestStep, hm, projNS, hc],
            show pickStep DirEntry.size (fun a b => a ≤ b) (some x) a = some x by
              simp [pickStep, not_lt.mp hc]]
          exact ih (some x)

theorem foldl_smallestStep (l : List DirEntry) : ∀ o : Option DirEntry,
    l.foldl smallestStep (o.map projNS)
      = ((l.filter matchesMoviesCsv).foldl
          (pickStep DirEntry.size (fun a b => b ≤ a)) o).map projNS := by
  induction l with
  | nil => intro o; rfl
  | cons a t ih =>
    intro o
    rw [List.foldl_cons, List.filter_cons]
    cases hm : matchesMoviesCsv a with
    | false =>
      rw [show smallestStep (o.map projNS) a = o.map projNS by simp [smallestStep, hm]]
      simp only [Bool.false_eq_true, if_false, ih]
    | true =>
      simp only [if_pos, if_true, List.foldl_cons]
      cases o with
      | none =>
        rw [show smallestStep ((none : Option DirEntry).map projNS) a
            = (some a).map projNS by simp [smallestStep, hm, projNS],
          show pickStep DirEntry.size (fun a b => b ≤ a) none a = some a from rfl]
        exact ih (some a)
      | some x =>
        by_cases hc : a.size < x.size
        · rw [show smallestStep ((some x).map projNS) a = (some a).map projNS by
              simp [smallestStep, hm, projNS, hc],
            show pickStep DirEntry.size (fun a b => b ≤ a) (some x) a = some a by
              simp [pickStep, not_le.mpr hc]]
          exact ih (some a)
        · rw [show smallestStep ((some x).map projNS) a = (some x).map projNS by
              simp [smallestStep, hm, projNS, hc],
            show pickStep DirEntry.size (fun a b => b ≤ a) (some x) a = some x by
              simp [pickStep, not_lt.mp hc]]
          exact ih (some x)

/-- C8: find_largest_csv (respectively find_smallest_csv) returns the name
of the first candidate, a regular file whose name starts with movies_ and
ends with .csv, of maximal (respectively minimal) size in directory
iteration order, and none exactly when no entry matches; ties keep the
first seen because replacement requires a strict size comparison. -/
theorem find_extreme_csv_correct (entries : List DirEntry) :
    (find_largest_csv entries
      = ((entries.filter matchesMoviesCsv).find?
          (fun x => (entries.filter matchesMoviesCsv).all
            (fun m => decide (m.size ≤ x.size)))).map DirEntry.name) ∧
    (find_smallest_csv entries
      = ((entries.filter matchesMoviesCsv).find?
          (fun x => (entries.filter matchesMoviesCsv).all
            (fun m => decide (x.size ≤ m.size)))).map DirEntry.name) ∧
    (find_largest_csv entries = none ↔ entries.filter matchesMoviesCsv = []) ∧
    (find_smallest_csv entries = none ↔ entries.filter matchesMoviesCsv = []) := by
  have hL : find_largest_csv entries
      = ((entries.filter matchesMoviesCsv).foldl
          (pickStep DirEntry.size (fun a b => a ≤ b)) none).map DirEntry.name := by
    rw [find_largest_csv,
      show (none : Option (String × Nat))
        = (Option.map projNS (none : Option DirEntry)) from rfl,
      foldl_largestStep, Option.map_map]
    rfl
  have hS : find_smallest_csv entries
      = ((entries.filter matchesMoviesCsv).foldl
          (pickStep DirEntry.size (fun a b => b ≤ a)) none).map DirEntry.name := by
    rw [find_smallest_csv,
      show (none : Option (String × Nat))
        = (Option.map projNS (none : Option DirEntry)) from rfl,
      foldl_smallestStep, Option.map_map]
    rfl
  refine ⟨?_, ?_, ?_, ?_⟩
  · rw [hL, foldl_pickStep_none DirEntry.size (fun a b => a ≤ b) (fun b => le_refl b)
      (fun a b c hab hbc => le_trans hab hbc) (fun a b => le_total a b)]
  · rw [hS, foldl_pickStep_none DirEntry.size (fun a b => b ≤ a) (fun b => le_refl b)
      (fun a b c hab hbc => le_trans hbc hab) (fun a b => le_total b a)]
  · rw [hL]
    cases hf : entries.filter matchesMoviesCsv with
    | nil => simp
    | cons a t =>
      rw [List.foldl_cons,
        show pickStep DirEntry.size (fun a b => a ≤ b) none a = some a from rfl]
      constructor
      · intro hmap
        exfalso
        have hsome := foldl_pickStep_isSome DirEntry.size (fun a b => a ≤ b) t a
        rw [Option.map_eq_none'] at hmap
        rw [hmap] at hsome
        simp at hsome
      · intro hcontra
        simp at hcontra
  · rw [hS]
    cases hf : entries.filter matchesMoviesCsv with
    | nil => simp
    | cons a t =>
      rw [List.foldl_cons,
        show pickStep DirEntry.size (fun a b => b ≤ a) none a = some a from rfl]
      constructor
      · intro hmap
        exfalso
        have hsome := foldl_pickStep_isSome DirEntry.size (fun a b => b ≤ a) t a
        rw [Option.map_eq_none'] at hmap
        rw [hmap] at hsome
        simp at hsome
      · intro hcontra
        simp at hcontra

theorem find_extreme_csv_correct_witness :
    ([DirEntry.mk "notes.txt" true 5].filter matchesMoviesCsv = []) ∧
    find_largest_csv [DirEntry.mk "notes.txt" true 5] = none :=
  ⟨by decide,
    (find_extreme_csv_correct [DirEntry.mk "notes.txt" true 5]).2.2.1.mpr (by decide)⟩

theorem lookup_append {κ β : Type} [BEq κ] (l₁ l₂ : List (κ × β)) (y : κ) :
    List.lookup y (l₁ ++ l₂)
      = match List.lookup y l₁ with
        | some v => some v
        | none => List.lookup y l₂ := by
  induction l₁ with
  | nil => rfl
  | cons p t ih =>
    obtain ⟨k, v⟩ := p
    rw [List.cons_append, List.lookup_cons, List.lookup_cons]
    cases h : (y == k) <;> simp [h, ih]

theorem hmPushTitle_lookup (acc : List (String × List String)) (Y t : String) (y : String) :
    List.lookup y (hmPushTitle acc Y t)
      = if y == Y then some (((List.lookup y acc).getD []) ++ [t])
        else List.lookup y acc := by
  rw [hmPushTitle]
  by_cases hs : (List.lookup Y acc).isSome = true
  · rw [if_pos hs, lookup_map_modify Y (fun v => v ++ [t]) acc y]
    by_cases hy : y = Y
    · subst hy
      obtain ⟨v, hv⟩ := Option.isSome_iff_exists.mp hs
      rw [hv]
      simp
    · have hb : (y == Y) = false := by simp [hy]
      simp [hb]
  · rw [if_neg hs]
    have hnone : List.lookup Y acc = none := by
      cases h : List.lookup Y acc with
      | none => rfl
      | some v => rw [h] at hs; simp at hs
    rw [lookup_append]
    by_cases hy : y = Y
    · subst hy
      rw [hnone]
      simp [List.lookup_cons]
    · have hb : (y == Y) = false := by simp [hy]
      cases h : List.lookup y acc with
      | some v => simp [h, hb]
      | none => simp [h, hb, List.lookup_cons]

theorem foldl_groupStep_lookup (rows : List (List String)) :
    ∀ (acc : List (String × List String)) (y : String),
      List.lookup y (rows.foldl groupStep acc)
        = match List.lookup y acc with
          | some cur => some (cur ++ groupTitles rows y)
          | none => if groupTitles rows y = [] then none
                    else some (groupTitles rows y) := by
  induction rows with
  | nil =>
    intro acc y
    rw [List.foldl_nil]
    cases h : List.lookup y acc <;> simp [groupTitles, h]
  | cons r rest ih =>
    intro acc y
    rw [List.foldl_cons]
    by_cases hk : (r.getD 0 "") ≠ "" ∧ (r.getD 1 "") ≠ ""
    · rw [show groupStep acc r = hmPushTitle acc (r.getD 1 "") (r.getD 0 "") by
        simp only [groupStep]; rw [if_pos hk]]
      rw [ih, hmPushTitle_lookup]
      by_cases hy : (r.getD 1 "") = y
      · subst hy
        have hb : ((r.getD 1 "") == (r.getD 1 "")) = true := by simp
        rw [if_pos hb]
        have hgt : groupTitles (r :: rest) (r.getD 1 "")
            = (r.getD 0 "") :: groupTitles rest (r.getD 1 "") := by
          rw [groupTitles, List.filterMap_cons]
          rw [if_pos ⟨hk.1, hk.2, rfl⟩]
          rfl
        rw [hgt]
        cases h : List.lookup (r.getD 1 "") acc with
        | some cur => simp [h]
        | none => simp [h]
      · have hb : (y == (r.getD 1 "")) = false := by
          rw [beq_eq_false_iff_ne]
          exact fun h => hy h.symm
        have hb2 : ¬ ((y == (r.getD 1 "")) = true) := by rw [hb]; simp
        rw [if_neg hb2]
        have hgt : groupTitles (r :: rest) y = groupTitles rest y := by
          rw [groupTitles, List.filterMap_cons]
          rw [if_neg (fun hc => hy hc.2.2)]
          rfl
        rw [hgt]
    · rw [show groupStep acc r = acc by simp only [groupStep]; rw [if_neg hk]]
      rw [ih]
      have hgt : groupTitles (r :: rest) y = groupTitles rest y := by
        rw [groupTitles, List.filterMap_cons]
        rw [if_neg (fun hc => hk ⟨hc.1, hc.2.1⟩)]
        rfl
      rw [hgt]

/-- C10: a data row enters the year grouping of HW2 process_file iff its
verbatim title and year fields are both non-empty; the raw year string is
used as the group key with no integer parse, no range check and no trim,
and each group key y is materialized as a file named y.txt. -/
theorem process_file_grouping_correct (rows : List (List String)) (y : String) :
    (List.lookup y (process_file_groups rows)
      = if groupTitles rows y = [] then none else some (groupTitles rows y)) ∧
    ((y ++ ".txt") ∈ yearFileNames rows ↔ groupTitles rows y ≠ []) := by
  have h1 : List.lookup y (process_file_groups rows)
      = if groupTitles rows y = [] then none else some (groupTitles rows y) := by
    rw [process_file_groups, foldl_groupStep_lookup]
    rfl
  refine ⟨h1, ?_⟩
  rw [yearFileNames]
  constructor
  · intro hmem
    rw [List.mem_map] at hmem
    obtain ⟨p, hp, he⟩ := hmem
    have hdata := congrArg String.data he
    rw [String.data_append, String.data_append] at hdata
    have hkey : p.1 = y := String.ext (List.append_cancel_right hdata)
    have hk2 : y ∈ (process_file_groups rows).map Prod.fst := by
      rw [← hkey]
      exact List.mem_map_of_mem Prod.fst hp
    have hsome := (lookup_isSome_iff_mem _ y).mpr hk2
    intro hcon
    rw [h1, if_pos hcon] at hsome
    simp at hsome
  · intro hne
    have hsome : (List.lookup y (process_file_groups rows)).isSome = true := by
      rw [h1, if_neg hne]
      rfl
    have hk2 := (lookup_isSome_iff_mem _ y).mp hsome
    rw [List.mem_map] at hk2
    obtain ⟨p, hp, hfst⟩ := hk2
    rw [List.mem_map]
    exact ⟨p, hp, by rw [hfst]⟩

theorem process_file_grouping_correct_witness :
    (groupTitles [["T", "1850"], ["U", "abcd"], ["", "2000"]] "1850" ≠ []) ∧
    ("1850" ++ ".txt") ∈ yearFileNames [["T", "1850"], ["U", "abcd"], ["", "2000"]] :=
  ⟨by decide,
    (process_file_grouping_correct [["T", "1850"], ["U", "abcd"], ["", "2000"]] "1850").2.mpr
      (by decide)⟩

/-- C9 counterexample: a filename containing the whitespace character tab
passes all startup checks and the prologue proceeds to open the file, so
whitespace in general does not cause termination; the code only rejects
the space character. -/
theorem startup_whitespace_counterexample :
    mainStartup ["movies", "a\tb"] = StartupOutcome.proceed "a\tb"
    ∧ Char.isWhitespace '\t' = true ∧ '\t' ∈ "a\tb".data := by decide

/-- C9 (amended): a malformed argument vector, meaning argument count not
equal to 2, a filename of 50 bytes or more, or a filename containing a
space character, makes the startup prologue of HW1 main exit with status 1
and a descriptive error message before any file is opened; otherwise the
prologue proceeds with the filename. -/
theorem startup_arg_validation_amended (args : List String) :
    ((args.length ≠ 2 ∨ 50 ≤ utf8Len (args.getD 1 "").data
        ∨ (args.getD 1 "").data.contains ' ' = true)
      ↔ ∃ msg, mainStartup args = StartupOutcome.exitErr 1 msg) ∧
    (¬(args.length ≠ 2 ∨ 50 ≤ utf8Len (args.getD 1 "").data
        ∨ (args.getD 1 "").data.contains ' ' = true)
      → mainStartup args = StartupOutcome.proceed (args.getD 1 "")) := by
  simp only [mainStartup]
  split_ifs with h1 h2 h3
  · exact ⟨⟨fun _ => ⟨_, rfl⟩, fun _ => Or.inl h1⟩, fun hcon => absurd (Or.inl h1) hcon⟩
  · exact ⟨⟨fun _ => ⟨_, rfl⟩, fun _ => Or.inr (Or.inl h2)⟩,
      fun hcon => absurd (Or.inr (Or.inl h2)) hcon⟩
  · exact ⟨⟨fun _ => ⟨_, rfl⟩, fun _ => Or.inr (Or.inr h3)⟩,
      fun hcon => absurd (Or.inr (Or.inr h3)) hcon⟩
  · constructor
    · constructor
      · intro hc
        rcases hc with hc | hc | hc
        · exact absurd hc h1
        · exact absurd hc h2
        · exact absurd hc h3
      · rintro ⟨msg, hmsg⟩
        exact absurd hmsg (fun h => h)
    · intro _
      rfl

theorem startup_arg_validation_amended_witness :
    ((["movies"].length ≠ 2 ∨ 50 ≤ utf8Len ((["movies"].getD 1 "").data)
        ∨ ((["movies"].getD 1 "").data.contains ' ') = true)) ∧
    (∃ msg, mainStartup ["movies"] = StartupOutcome.exitErr 1 msg) :=
  ⟨by decide, (startup_arg_validation_amended ["movies"]).1.mp (by decide)⟩
end OS1
